import Mathlib

/-!
Shallow embedding of the authentication core of the rfd-api repository.

Strings from the Rust source are modelled as `List Char`, timestamps
(`DateTime<Utc>`) as `Int` (seconds), and `Uuid` as `Nat` (a 128-bit value;
the bound is tracked where it matters).  Database tables are modelled as
lists of row structures, and the Diesel queries of
`rfd-model/src/storage/postgres.rs` as filters over those lists; rows are
taken in the order the database would return them (the claims settled here
do not depend on the `ORDER BY` clauses).  Fallible operations return
`Except`/`Option`.
-/

/-- Identifier type of the `uuid` crate, modelled as a natural number
(128-bit value). -/
abbrev Uuid := Nat

/-- Modelled from the spec: the closed capability vocabulary of
`rfd-api/src/permissions.rs` / `rfd-model/src/permissions.rs`, which is not
under src/.  Following §3 of the spec it has globally scoped variants
("read all documents"), resource-scoped variants ("read document #N"), and
identity-relative variants ("read documents I am assigned to", "read my own
record"), here instantiated with read/write document families and a user
family. -/
inductive ApiPermission where
  | ReadAllRfds : ApiPermission
  | ReadRfd (n : Nat) : ApiPermission
  | ReadAssignedRfds : ApiPermission
  | WriteAllRfds : ApiPermission
  | WriteRfd (n : Nat) : ApiPermission
  | ReadAllUsers : ApiPermission
  | ReadUser (id : Uuid) : ApiPermission
  | ReadSelf : ApiPermission
deriving DecidableEq, Repr

/-- Modelled from the spec: a Permission Set is "an unordered collection of
Permissions with set semantics (duplicates collapse)" (§3), so it is
embedded as a finite set. -/
abbrev Permissions := Finset ApiPermission

/-- Modelled from the spec: the global variant that subsumes a
resource-scoped variant of the same action family, when one exists ("a
global variant subsumes every resource-scoped variant of the same action",
§3). -/
def ApiPermission.broadened : ApiPermission → Option ApiPermission
  | .ReadRfd _ => some .ReadAllRfds
  | .WriteRfd _ => some .WriteAllRfds
  | .ReadUser _ => some .ReadAllUsers
  | _ => none

/-- Modelled from the spec: `contains/covers(p)` of §3 (the `can` method of
`rfd-model`'s `Permissions`, which is not under src/): true if `p` is
present verbatim or subsumed by a broader variant held in the set.
Identity-relative variants are covered only verbatim — they "are
meaningless until expanded" (§3). -/
def Permissions.can (s : Permissions) (p : ApiPermission) : Bool :=
  decide (p ∈ s) ||
    (match ApiPermission.broadened p with
     | some q => decide (q ∈ s)
     | none => false)

/-- Modelled from the spec: `intersect(other)` of §3, "computed
per-action-family by keeping the most specific variant present in both
operands (global ∩ global = global; global ∩ scoped = scoped; scoped(a) ∩
scoped(b), a≠b = empty for that pair)": a variant of either operand is kept
exactly when both operands cover it. -/
def Permissions.intersect (a b : Permissions) : Permissions :=
  Finset.filter (fun p => a.can p = true ∧ b.can p = true) (a ∪ b)

/-- Row of the `api_user` table (the `ApiUser` record of `rfd-model`),
as read back by `ApiUserStore::list` in postgres.rs. The `assigned` field
is modelled from the spec: expansion of identity-relative variants uses
"that identity's own id and its assignment records" (§3); the assignment
records are carried on the user model here. -/
structure ApiUserRow where
  id : Uuid
  permissions : Permissions
  assigned : List Nat
  created_at : Int
  updated_at : Int
  deleted_at : Option Int
deriving DecidableEq

/-- Modelled from the spec: expansion of a single permission against an
identity — every identity-relative variant is replaced "with the concrete
resource-scoped variants implied by that identity's own id and its
assignment records, leaving already-concrete variants unchanged" (§3). -/
def ApiPermission.expand1 (u : ApiUserRow) : ApiPermission → Permissions
  | .ReadAssignedRfds => (u.assigned.map ApiPermission.ReadRfd).toFinset
  | .ReadSelf => {.ReadUser u.id}
  | p => {p}

/-- Modelled from the spec: `expand(identity)` of §3, applied pointwise to
the set. -/
def Permissions.expand (s : Permissions) (u : ApiUserRow) : Permissions :=
  s.biUnion (ApiPermission.expand1 u)

theorem Permissions.intersect_comm (a b : Permissions) :
    a.intersect b = b.intersect a := by
  unfold Permissions.intersect
  ext p
  simp only [Finset.mem_filter, Finset.mem_union]
  tauto

/-- Pagination window of `rfd-model`'s `ListPagination` as used by the
queries in context.rs (`offset`, `limit`). -/
structure ListPagination where
  offset : Nat
  limit : Nat
deriving DecidableEq

/-- Row of the `api_key` table as read back by `ApiKeyStore::list` in
postgres.rs (`ApiKey` of rfd-model): identity reference, the persisted
signature acting as lookup key, permission set, expiry and lifecycle
timestamps. -/
structure ApiKeyRow where
  id : Uuid
  api_user_id : Uuid
  key : List Char
  permissions : Permissions
  expires_at : Int
  created_at : Int
  updated_at : Int
  deleted_at : Option Int
deriving DecidableEq

/-- Filter of `ApiKeyStore::list` (`ApiKeyFilter` of rfd-model): optional
id lists plus the `expired` / `deleted` switches. -/
structure ApiKeyFilter where
  api_user_id : Option (List Uuid)
  key : Option (List (List Char))
  expired : Bool
  deleted : Bool
deriving DecidableEq

/-- Row predicate of the Diesel query built in `ApiKeyStore::list`
(postgres.rs lines 545-580): `eq_any` tests for each supplied filter list,
`expires_at > now` unless `expired`, and `deleted_at IS NULL` unless
`deleted`. -/
def apiKeyMatches (now : Int) (f : ApiKeyFilter) (r : ApiKeyRow) : Bool :=
  (match f.api_user_id with
   | some ids => ids.contains r.api_user_id
   | none => true) &&
  (match f.key with
   | some ks => ks.contains r.key
   | none => true) &&
  (f.expired || decide (now < r.expires_at)) &&
  (f.deleted || r.deleted_at.isNone)

/-- List query of `ApiKeyStore::list`: filter, then apply the pagination
window. -/
def apiKeyList (now : Int) (rows : List ApiKeyRow) (f : ApiKeyFilter)
    (pag : ListPagination) : List ApiKeyRow :=
  ((rows.filter (apiKeyMatches now f)).drop pag.offset).take pag.limit

/-- Lookup of `ApiUserStore::get` (postgres.rs lines 421-433): list with an
id filter, excluding soft-deleted rows unless `deleted`, limited to one
result. -/
def apiUserGet (users : List ApiUserRow) (id : Uuid) (deleted : Bool) :
    Option ApiUserRow :=
  (users.filter (fun u => u.id == id && (deleted || u.deleted_at.isNone))).head?

/-- Claims of a verified JWT (`Claims` in rfd-api/src/authn/jwt.rs):
audience, permission set, expiry, not-before, token id. -/
structure Claims where
  aud : Uuid
  prm : Permissions
  exp : Int
  nbf : Int
  jti : Uuid
deriving DecidableEq

/-- Presented credential (`AuthToken` of rfd-api/src/authn): either an API
key lookup string or the claims of an already-verified JWT. -/
inductive AuthToken where
  | apiKey (encrypted : List Char) : AuthToken
  | jwt (claims : Claims) : AuthToken
deriving DecidableEq

/-- Error type of caller resolution (`CallerError` in context.rs). -/
inductive CallerError where
  | FailedToAuthenticate : CallerError
  | Storage : CallerError
deriving DecidableEq

/-- Resolved caller (`Caller` of rfd-model::permissions): identity id plus
effective permission set. -/
structure Caller where
  id : Uuid
  permissions : Permissions
deriving DecidableEq

/-- Credential half of `ApiContext::get_caller` (context.rs lines
224-260): an API key is looked up by its signature among non-expired,
non-deleted keys (limit 1, then `Vec::pop`), yielding the key's owner and
permission set; verified JWT claims directly yield audience and embedded
permissions. -/
def authCredential (now : Int) (keys : List ApiKeyRow) (auth : AuthToken) :
    Except CallerError (Uuid × Permissions) :=
  match auth with
  | .apiKey sig =>
      let ks := apiKeyList now keys
        { api_user_id := none, key := some [sig], expired := false, deleted := false }
        { offset := 0, limit := 1 }
      match ks.getLast? with
      | some k => .ok (k.api_user_id, k.permissions)
      | none => .error .FailedToAuthenticate
  | .jwt c => .ok (c.aud, c.prm)

/-- Identity half of `ApiContext::get_caller` (context.rs lines 262-276):
fetch the identity excluding soft-deleted rows; on success the caller's
permissions are `user.permissions.intersect(&permissions).expand(&user)`,
otherwise authentication fails. -/
def get_caller (now : Int) (keys : List ApiKeyRow) (users : List ApiUserRow)
    (auth : AuthToken) : Except CallerError Caller :=
  match authCredential now keys auth with
  | .error e => .error e
  | .ok (api_user_id, permissions) =>
      match apiUserGet users api_user_id false with
      | some user =>
          .ok { id := api_user_id
                permissions := (user.permissions.intersect permissions).expand user }
      | none => .error .FailedToAuthenticate

/-- C1: for every credential (API key or verified claims) carrying
permission set `prm` that resolves to a non-soft-deleted identity,
`get_caller` returns a `Caller` whose effective permission set equals
`prm.intersect(identity.permissions).expand(identity)` — intersection of
the credential's permissions with the identity's stored permissions, with
intersect applied before expand. -/
theorem get_caller_effective_permissions
    (now : Int) (keys : List ApiKeyRow) (users : List ApiUserRow)
    (auth : AuthToken) (uid : Uuid) (prm : Permissions) (user : ApiUserRow)
    (hcred : authCredential now keys auth = .ok (uid, prm))
    (huser : apiUserGet users uid false = some user) :
    get_caller now keys users auth =
      .ok { id := uid
            permissions := (prm.intersect user.permissions).expand user } := by
  unfold get_caller
  simp only [hcred, huser]
  rw [Permissions.intersect_comm]

/-- Witness for C1 at a concrete JWT credential and identity. -/
theorem get_caller_effective_permissions_witness :
    authCredential 0 [] (.jwt ⟨1, {.ReadAllRfds}, 100, 0, 7⟩) =
      .ok (1, {.ReadAllRfds}) ∧
    apiUserGet [⟨1, {.ReadAllRfds, .ReadSelf}, [], 0, 0, none⟩] 1 false =
      some ⟨1, {.ReadAllRfds, .ReadSelf}, [], 0, 0, none⟩ ∧
    get_caller 0 [] [⟨1, {.ReadAllRfds, .ReadSelf}, [], 0, 0, none⟩]
        (.jwt ⟨1, {.ReadAllRfds}, 100, 0, 7⟩) =
      .ok { id := 1
            permissions :=
              (Permissions.intersect {.ReadAllRfds} {.ReadAllRfds, .ReadSelf}).expand
                ⟨1, {.ReadAllRfds, .ReadSelf}, [], 0, 0, none⟩ } :=
  ⟨rfl, rfl, get_caller_effective_permissions 0 [] _ _ 1 _ _ rfl rfl⟩

/-- C2: when the credential resolves (its embedded identity id and
permission set are recovered) but no non-soft-deleted identity record
matches that id — the identity is absent or soft-deleted — `get_caller`
fails with `FailedToAuthenticate` and no `Caller` is produced. -/
theorem get_caller_missing_identity_fails
    (now : Int) (keys : List ApiKeyRow) (users : List ApiUserRow)
    (auth : AuthToken) (uid : Uuid) (prm : Permissions)
    (hcred : authCredential now keys auth = .ok (uid, prm))
    (huser : apiUserGet users uid false = none) :
    get_caller now keys users auth = .error .FailedToAuthenticate := by
  unfold get_caller
  simp only [hcred, huser]

/-- Witness for C2: a live API key that verifies, owned by a soft-deleted
identity, is denied. -/
theorem get_caller_missing_identity_fails_witness :
    authCredential 0 [⟨9, 2, ['s'], ∅, 10, 0, 0, none⟩] (.apiKey ['s']) =
      .ok (2, ∅) ∧
    apiUserGet [⟨2, ∅, [], 0, 0, some 5⟩] 2 false = none ∧
    get_caller 0 [⟨9, 2, ['s'], ∅, 10, 0, 0, none⟩] [⟨2, ∅, [], 0, 0, some 5⟩]
        (.apiKey ['s']) = .error .FailedToAuthenticate :=
  ⟨rfl, rfl, get_caller_missing_identity_fails 0 _ _ _ 2 ∅ rfl rfl⟩

/-- Login error variants of rfd-api relevant to token issuance
(`LoginError` in endpoints/login). -/
inductive LoginError where
  | ExcessTokenExpiration : LoginError
deriving DecidableEq

/-- API error wrapper (`ApiError` in rfd-api/src/error.rs) as used by
`register_access_token`. -/
inductive ApiError where
  | Login (e : LoginError) : ApiError
  | Storage : ApiError
deriving DecidableEq

/-- Result of `ApiContext::register_access_token`
(`RegisteredAccessToken`): the claims that were signed together with the
effective expiry (the persisted token row and the JWT signature are
produced from `claims` and are not separately modelled). -/
structure RegisteredAccessToken where
  claims : Claims
  expires_at : Int
deriving DecidableEq

/-- Embedding of `ApiContext::register_access_token` (context.rs lines
451-492).  `defaultExp` / `maxExp` are the configured
`default_expiration` / `max_expiration` seconds, `now` the current time
and `jti` the freshly drawn token id (`Uuid::new_v4`).  A missing
`expires_at` defaults to `now + defaultExp`; an expiry beyond
`now + maxExp` is rejected with `ExcessTokenExpiration`; the issued claims
carry the intersection of the requested permissions with the user's
permissions. -/
def register_access_token (defaultExp maxExp now : Int) (api_user : ApiUserRow)
    (requested_permissions : Permissions) (expiresAt : Option Int)
    (jti : Uuid) : Except ApiError RegisteredAccessToken :=
  let expires_at := expiresAt.getD (now + defaultExp)
  if now + maxExp < expires_at then
    .error (.Login .ExcessTokenExpiration)
  else
    .ok { claims :=
            { aud := api_user.id
              prm := requested_permissions.intersect api_user.permissions
              exp := expires_at
              nbf := now
              jti := jti }
          expires_at := expires_at }

/-- C5: token issuance uses the configured default duration when no
`expires_at` is supplied (it behaves exactly as a request for
`now + defaultExp`); every requested expiry at most `now + maxExp`
succeeds; every requested expiry strictly beyond `now + maxExp` fails with
`ExcessTokenExpiration`. -/
theorem register_access_token_expiration_policy
    (defaultExp maxExp now : Int) (u : ApiUserRow) (req : Permissions)
    (jti : Uuid) :
    (register_access_token defaultExp maxExp now u req none jti =
      register_access_token defaultExp maxExp now u req (some (now + defaultExp)) jti) ∧
    (∀ e : Int, e ≤ now + maxExp →
      register_access_token defaultExp maxExp now u req (some e) jti =
        .ok { claims :=
                { aud := u.id
                  prm := req.intersect u.permissions
                  exp := e
                  nbf := now
                  jti := jti }
              expires_at := e }) ∧
    (∀ e : Int, now + maxExp < e →
      register_access_token defaultExp maxExp now u req (some e) jti =
        .error (.Login .ExcessTokenExpiration)) := by
  refine ⟨rfl, ?_, ?_⟩
  · intro e he
    unfold register_access_token
    simp only [Option.getD_some]
    rw [if_neg (by omega)]
  · intro e he
    unfold register_access_token
    simp only [Option.getD_some]
    rw [if_pos he]

/-- Witness for C5 at concrete values: default 60, maximum 100, now 0;
an expiry of exactly 100 succeeds and 101 fails. -/
theorem register_access_token_expiration_policy_witness :
    ((0 : Int) + 100 ≥ 100) ∧ ((0 : Int) + 100 < 101) ∧
    (register_access_token 60 100 0 ⟨1, ∅, [], 0, 0, none⟩ ∅ (some 100) 7 =
      .ok { claims := { aud := 1, prm := Permissions.intersect ∅ ∅, exp := 100, nbf := 0, jti := 7 }
            expires_at := 100 }) ∧
    (register_access_token 60 100 0 ⟨1, ∅, [], 0, 0, none⟩ ∅ (some 101) 7 =
      .error (.Login .ExcessTokenExpiration)) :=
  ⟨by decide, by decide,
    (register_access_token_expiration_policy 60 100 0 ⟨1, ∅, [], 0, 0, none⟩ ∅ 7).2.1
      100 (by decide),
    (register_access_token_expiration_policy 60 100 0 ⟨1, ∅, [], 0, 0, none⟩ ∅ 7).2.2
      101 (by decide)⟩

/-- Modelled from the spec: the login-attempt state tags
(`LoginAttemptState` of rfd-model's schema_ext, which is not under src/):
`Created → RemoteAuthenticated → {Completed | Failed}` (§4.6). -/
inductive LoginAttemptState where
  | Created : LoginAttemptState
  | RemoteAuthenticated : LoginAttemptState
  | Completed : LoginAttemptState
  | Failed : LoginAttemptState
deriving DecidableEq, Repr

/-- Row of the `login_attempt` table (the `LoginAttempt` record of
rfd-model), with the columns written by `LoginAttemptStore::upsert` in
postgres.rs lines 929-944 plus the lifecycle timestamps. -/
structure LoginAttemptRow where
  id : Uuid
  attempt_state : LoginAttemptState
  client_id : Uuid
  redirect_uri : List Char
  state : Option (List Char)
  pkce_challenge : Option (List Char)
  pkce_challenge_method : Option (List Char)
  authz_code : Option (List Char)
  expires_at : Int
  provider : List Char
  provider_state : Option (List Char)
  provider_pkce_verifier : Option (List Char)
  provider_authz_code : Option (List Char)
  created_at : Int
  updated_at : Int
deriving DecidableEq, Repr

/-- Insertable login attempt (`NewLoginAttempt` of rfd-model): the row
fields without the store-managed timestamps. -/
structure NewLoginAttempt where
  id : Uuid
  attempt_state : LoginAttemptState
  client_id : Uuid
  redirect_uri : List Char
  state : Option (List Char)
  pkce_challenge : Option (List Char)
  pkce_challenge_method : Option (List Char)
  authz_code : Option (List Char)
  expires_at : Int
  provider : List Char
  provider_state : Option (List Char)
  provider_pkce_verifier : Option (List Char)
  provider_authz_code : Option (List Char)
deriving DecidableEq, Repr

/-- Conversion `From<LoginAttempt> for NewLoginAttempt` of rfd-model:
keep every settable column, drop the timestamps. -/
def LoginAttemptRow.toNew (a : LoginAttemptRow) : NewLoginAttempt :=
  { id := a.id
    attempt_state := a.attempt_state
    client_id := a.client_id
    redirect_uri := a.redirect_uri
    state := a.state
    pkce_challenge := a.pkce_challenge
    pkce_challenge_method := a.pkce_challenge_method
    authz_code := a.authz_code
    expires_at := a.expires_at
    provider := a.provider
    provider_state := a.provider_state
    provider_pkce_verifier := a.provider_pkce_verifier
    provider_authz_code := a.provider_authz_code }

/-- Freshly inserted row for a new attempt id (the `insert_into ...
values` half of `LoginAttemptStore::upsert`). -/
def newLoginAttemptRow (n : NewLoginAttempt) (now : Int) : LoginAttemptRow :=
  { id := n.id
    attempt_state := n.attempt_state
    client_id := n.client_id
    redirect_uri := n.redirect_uri
    state := n.state
    pkce_challenge := n.pkce_challenge
    pkce_challenge_method := n.pkce_challenge_method
    authz_code := n.authz_code
    expires_at := n.expires_at
    provider := n.provider
    provider_state := n.provider_state
    provider_pkce_verifier := n.provider_pkce_verifier
    provider_authz_code := n.provider_authz_code
    created_at := now
    updated_at := now }

/-- Conflict update of `LoginAttemptStore::upsert` (postgres.rs lines
945-953): on an existing id only `attempt_state`, `authz_code`,
`expires_at`, `provider_authz_code` and `updated_at` are overwritten from
the excluded values; every other column keeps its stored value. -/
def updateLoginAttemptRow (old : LoginAttemptRow) (n : NewLoginAttempt)
    (now : Int) : LoginAttemptRow :=
  { old with
    attempt_state := n.attempt_state
    authz_code := n.authz_code
    expires_at := n.expires_at
    provider_authz_code := n.provider_authz_code
    updated_at := now }

/-- Embedding of `LoginAttemptStore::upsert` (postgres.rs lines 928-958):
insert the record, or on an id conflict apply the partial update; the
affected row is returned. -/
def loginAttemptUpsert (rows : List LoginAttemptRow) (n : NewLoginAttempt)
    (now : Int) : List LoginAttemptRow × LoginAttemptRow :=
  match rows.find? (fun r => r.id == n.id) with
  | some old =>
      (rows.map (fun r => if r.id == n.id then updateLoginAttemptRow r n now else r),
        updateLoginAttemptRow old n now)
  | none => (rows ++ [newLoginAttemptRow n now], newLoginAttemptRow n now)

/-- Record written by `ApiContext::set_login_provider_authz_code`
(context.rs lines 590-595): the attempt converted to a `NewLoginAttempt`
with the provider's code stored verbatim, the state flipped to
`RemoteAuthenticated`, and a fresh random local authorization code
(`CsrfToken::new_random`, modelled by the `freshCode` parameter). -/
def transitionRecord (attempt : LoginAttemptRow) (code freshCode : List Char) :
    NewLoginAttempt :=
  { attempt.toNew with
    provider_authz_code := some code
    attempt_state := LoginAttemptState.RemoteAuthenticated
    authz_code := some freshCode }

/-- Embedding of `ApiContext::set_login_provider_authz_code` (context.rs
lines 585-598): build the transition record and upsert it. -/
def set_login_provider_authz_code (rows : List LoginAttemptRow) (now : Int)
    (attempt : LoginAttemptRow) (code : List Char) (freshCode : List Char) :
    List LoginAttemptRow × LoginAttemptRow :=
  loginAttemptUpsert rows (transitionRecord attempt code freshCode) now

/-- Filter of `LoginAttemptStore::list` (`LoginAttemptFilter` of
rfd-model). -/
structure LoginAttemptFilter where
  id : Option (List Uuid)
  client_id : Option (List Uuid)
  attempt_state : Option (List LoginAttemptState)
  authz_code : Option (List (List Char))
deriving DecidableEq

/-- Row predicate of the Diesel query built in `LoginAttemptStore::list`
(postgres.rs lines 902-916): `eq_any` for each supplied list; a NULL
`authz_code` column never satisfies an `eq_any` comparison. -/
def loginAttemptMatches (f : LoginAttemptFilter) (r : LoginAttemptRow) : Bool :=
  (match f.id with
   | some ids => ids.contains r.id
   | none => true) &&
  (match f.client_id with
   | some ids => ids.contains r.client_id
   | none => true) &&
  (match f.attempt_state with
   | some sts => sts.contains r.attempt_state
   | none => true) &&
  (match f.authz_code with
   | some cs =>
      (match r.authz_code with
       | some c => cs.contains c
       | none => false)
   | none => true)

/-- List query of `LoginAttemptStore::list`: filter, then apply the
pagination window. -/
def loginAttemptList (rows : List LoginAttemptRow) (f : LoginAttemptFilter)
    (pag : ListPagination) : List LoginAttemptRow :=
  ((rows.filter (loginAttemptMatches f)).drop pag.offset).take pag.limit

/-- Embedding of `ApiContext::get_login_attempt_for_code` (context.rs
lines 604-625): list attempts whose state is `RemoteAuthenticated` and
whose local authorization code equals the presented code, limit 1, and pop
the result. -/
def get_login_attempt_for_code (rows : List LoginAttemptRow) (code : List Char) :
    Option LoginAttemptRow :=
  (loginAttemptList rows
    { id := none
      client_id := none
      attempt_state := some [LoginAttemptState.RemoteAuthenticated]
      authz_code := some [code] }
    { offset := 0, limit := 1 }).getLast?

/-- C6: lookup by local authorization code returns a login attempt only if
that attempt is stored, its state is `RemoteAuthenticated` and its local
authorization code equals the presented code exactly; in particular an
attempt in `Created` or `Failed` state is never returned, even when the
presented code value matches its stored code. -/
theorem get_login_attempt_for_code_only_remote_authenticated
    (rows : List LoginAttemptRow) (code : List Char) (a : LoginAttemptRow)
    (h : get_login_attempt_for_code rows code = some a) :
    a ∈ rows ∧ a.attempt_state = LoginAttemptState.RemoteAuthenticated ∧
    a.authz_code = some code ∧
    a.attempt_state ≠ LoginAttemptState.Created ∧
    a.attempt_state ≠ LoginAttemptState.Failed := by
  unfold get_login_attempt_for_code loginAttemptList at h
  have hmem := List.mem_of_mem_drop
    (List.mem_of_mem_take (List.mem_of_getLast?_eq_some h))
  rw [List.mem_filter] at hmem
  obtain ⟨harow, hmatch⟩ := hmem
  unfold loginAttemptMatches at hmatch
  simp only [Bool.and_eq_true] at hmatch
  obtain ⟨⟨⟨-, -⟩, hstate⟩, hcode⟩ := hmatch
  have hstate' : a.attempt_state = LoginAttemptState.RemoteAuthenticated := by
    revert hstate
    cases a.attempt_state <;> decide
  refine ⟨harow, hstate', ?_, by simp [hstate'], by simp [hstate']⟩
  cases hc : a.authz_code with
  | none => rw [hc] at hcode; simp at hcode
  | some c =>
      rw [hc] at hcode
      have : c = code := by
        revert hcode
        simp [List.contains_cons]
      rw [this]

/-- Row used by the witness for C6. -/
def rowC6 : LoginAttemptRow :=
  { id := 1
    attempt_state := LoginAttemptState.RemoteAuthenticated
    client_id := 2
    redirect_uri := ['u']
    state := none
    pkce_challenge := none
    pkce_challenge_method := none
    authz_code := some ['L']
    expires_at := 50
    provider := ['g']
    provider_state := none
    provider_pkce_verifier := none
    provider_authz_code := some ['p']
    created_at := 0
    updated_at := 0 }

/-- Witness for C6: a store holding a `Failed` attempt with the same code
and a `RemoteAuthenticated` attempt; lookup returns the
`RemoteAuthenticated` one. -/
theorem get_login_attempt_for_code_only_remote_authenticated_witness :
    get_login_attempt_for_code
        [{ rowC6 with id := 3, attempt_state := LoginAttemptState.Failed }, rowC6]
        ['L'] = some rowC6 ∧
    (rowC6 ∈ [{ rowC6 with id := 3, attempt_state := LoginAttemptState.Failed }, rowC6] ∧
     rowC6.attempt_state = LoginAttemptState.RemoteAuthenticated ∧
     rowC6.authz_code = some ['L'] ∧
     rowC6.attempt_state ≠ LoginAttemptState.Created ∧
     rowC6.attempt_state ≠ LoginAttemptState.Failed) :=
  ⟨by decide,
    get_login_attempt_for_code_only_remote_authenticated
      [{ rowC6 with id := 3, attempt_state := LoginAttemptState.Failed }, rowC6]
      ['L'] rowC6 (by decide)⟩

/-- C9: upserting a login attempt whose id is already stored changes only
the attempt state, local authorization code, expiry timestamp, provider
authorization code and updated-at timestamp of the affected row; the
client id, redirect URI, client state, PKCE challenge, PKCE challenge
method, provider name, provider state and provider PKCE verifier (and the
creation timestamp and id) retain their previously stored values
regardless of what the new record supplies for them. -/
theorem loginAttemptUpsert_partial_update
    (rows : List LoginAttemptRow) (n : NewLoginAttempt) (now : Int)
    (old : LoginAttemptRow)
    (hfind : rows.find? (fun r => r.id == n.id) = some old) :
    ((loginAttemptUpsert rows n now).2.attempt_state = n.attempt_state ∧
     (loginAttemptUpsert rows n now).2.authz_code = n.authz_code ∧
     (loginAttemptUpsert rows n now).2.expires_at = n.expires_at ∧
     (loginAttemptUpsert rows n now).2.provider_authz_code = n.provider_authz_code ∧
     (loginAttemptUpsert rows n now).2.updated_at = now) ∧
    ((loginAttemptUpsert rows n now).2.id = old.id ∧
     (loginAttemptUpsert rows n now).2.client_id = old.client_id ∧
     (loginAttemptUpsert rows n now).2.redirect_uri = old.redirect_uri ∧
     (loginAttemptUpsert rows n now).2.state = old.state ∧
     (loginAttemptUpsert rows n now).2.pkce_challenge = old.pkce_challenge ∧
     (loginAttemptUpsert rows n now).2.pkce_challenge_method = old.pkce_challenge_method ∧
     (loginAttemptUpsert rows n now).2.provider = old.provider ∧
     (loginAttemptUpsert rows n now).2.provider_state = old.provider_state ∧
     (loginAttemptUpsert rows n now).2.provider_pkce_verifier = old.provider_pkce_verifier ∧
     (loginAttemptUpsert rows n now).2.created_at = old.created_at) := by
  unfold loginAttemptUpsert
  rw [hfind]
  exact ⟨⟨rfl, rfl, rfl, rfl, rfl⟩,
    ⟨rfl, rfl, rfl, rfl, rfl, rfl, rfl, rfl, rfl, rfl⟩⟩

/-- New record used by the witness for C9: same id as `rowC6` but every
settable column different. -/
def newC9 : NewLoginAttempt :=
  { id := 1
    attempt_state := LoginAttemptState.Failed
    client_id := 7
    redirect_uri := ['x']
    state := some ['s']
    pkce_challenge := some ['k']
    pkce_challenge_method := some ['m']
    authz_code := some ['Z']
    expires_at := 99
    provider := ['h']
    provider_state := some ['t']
    provider_pkce_verifier := some ['v']
    provider_authz_code := some ['q'] }

/-- Witness for C9 at a concrete stored row and a new record that differs
in every settable column. -/
theorem loginAttemptUpsert_partial_update_witness :
    ([rowC6].find? (fun r => r.id == newC9.id) = some rowC6) ∧
    (((loginAttemptUpsert [rowC6] newC9 5).2.attempt_state = newC9.attempt_state ∧
      (loginAttemptUpsert [rowC6] newC9 5).2.authz_code = newC9.authz_code ∧
      (loginAttemptUpsert [rowC6] newC9 5).2.expires_at = newC9.expires_at ∧
      (loginAttemptUpsert [rowC6] newC9 5).2.provider_authz_code = newC9.provider_authz_code ∧
      (loginAttemptUpsert [rowC6] newC9 5).2.updated_at = 5) ∧
     ((loginAttemptUpsert [rowC6] newC9 5).2.id = rowC6.id ∧
      (loginAttemptUpsert [rowC6] newC9 5).2.client_id = rowC6.client_id ∧
      (loginAttemptUpsert [rowC6] newC9 5).2.redirect_uri = rowC6.redirect_uri ∧
      (loginAttemptUpsert [rowC6] newC9 5).2.state = rowC6.state ∧
      (loginAttemptUpsert [rowC6] newC9 5).2.pkce_challenge = rowC6.pkce_challenge ∧
      (loginAttemptUpsert [rowC6] newC9 5).2.pkce_challenge_method = rowC6.pkce_challenge_method ∧
      (loginAttemptUpsert [rowC6] newC9 5).2.provider = rowC6.provider ∧
      (loginAttemptUpsert [rowC6] newC9 5).2.provider_state = rowC6.provider_state ∧
      (loginAttemptUpsert [rowC6] newC9 5).2.provider_pkce_verifier = rowC6.provider_pkce_verifier ∧
      (loginAttemptUpsert [rowC6] newC9 5).2.created_at = rowC6.created_at)) :=
  ⟨by decide, loginAttemptUpsert_partial_update [rowC6] newC9 5 rowC6 (by decide)⟩

/-- Attempt already in `RemoteAuthenticated` state used by the C3
counterexample. -/
def attemptC3 : LoginAttemptRow :=
  { rowC6 with authz_code := some ['c', '1'], provider_authz_code := some ['p', '1'] }

/-- C3 counterexample: an attempt that has already entered
`RemoteAuthenticated` (holding local code "c1") is re-transitioned by
`set_login_provider_authz_code`, which mints and stores a fresh local code
"c2" — an operation of this core does regenerate and replace the local
authorization code of a `RemoteAuthenticated` attempt. -/
theorem set_login_provider_authz_code_retransitions :
    attemptC3.attempt_state = LoginAttemptState.RemoteAuthenticated ∧
    attemptC3.authz_code = some ['c', '1'] ∧
    (set_login_provider_authz_code [attemptC3] 1 attemptC3 ['p', '2'] ['c', '2']).2.authz_code
      = some ['c', '2'] ∧
    (set_login_provider_authz_code [attemptC3] 1 attemptC3 ['p', '2'] ['c', '2']).2.authz_code
      ≠ attemptC3.authz_code ∧
    (set_login_provider_authz_code [attemptC3] 1 attemptC3 ['p', '2'] ['c', '2']).1 =
      [(set_login_provider_authz_code [attemptC3] 1 attemptC3 ['p', '2'] ['c', '2']).2] := by
  decide

/-- Updating rows in place keeps the list of attempt ids unchanged:
`updateLoginAttemptRow` never touches the id column. -/
theorem loginAttemptUpdate_map_id (rows : List LoginAttemptRow)
    (n : NewLoginAttempt) (now : Int) (x : Uuid) :
    ((rows.map (fun r => if r.id == x then updateLoginAttemptRow r n now else r)).map
      LoginAttemptRow.id) = rows.map LoginAttemptRow.id := by
  rw [List.map_map]
  apply List.map_congr_left
  intro r hr
  by_cases h : (r.id == x) = true
  · simp only [Function.comp_apply, if_pos h]
    rfl
  · simp only [Function.comp_apply, if_neg h]

/-- C3 (amended): at most one live local authorization code exists per
attempt at any time — the store keeps a single row per attempt id, and the
transition leaves every row of that attempt holding exactly the freshly
minted code, the previous code ceasing to be live — but re-transitioning
is not prevented: `set_login_provider_authz_code` applied to an attempt
already in `RemoteAuthenticated` replaces its local authorization code
with the freshly minted one rather than leaving it untouched. -/
theorem set_login_provider_authz_code_single_live_code
    (rows : List LoginAttemptRow) (now : Int) (a : LoginAttemptRow)
    (code fresh : List Char)
    (hnodup : (rows.map LoginAttemptRow.id).Nodup) (ha : a ∈ rows) :
    (((set_login_provider_authz_code rows now a code fresh).1.map
        LoginAttemptRow.id).Nodup) ∧
    ((set_login_provider_authz_code rows now a code fresh).2.authz_code = some fresh) ∧
    (∀ b ∈ (set_login_provider_authz_code rows now a code fresh).1,
      b.id = a.id → b.authz_code = some fresh) := by
  have hfind : ∃ old, rows.find? (fun r => r.id == a.id) = some old := by
    cases hf : rows.find? (fun r => r.id == a.id) with
    | some o => exact ⟨o, rfl⟩
    | none =>
        exfalso
        have := List.find?_eq_none.mp hf a ha
        simp at this
  obtain ⟨old, hold⟩ := hfind
  unfold set_login_provider_authz_code loginAttemptUpsert
  rw [show (transitionRecord a code fresh).id = a.id from rfl, hold]
  refine ⟨?_, rfl, ?_⟩
  · rw [loginAttemptUpdate_map_id]
    exact hnodup
  · intro b hb hbid
    rw [List.mem_map] at hb
    obtain ⟨r, hr, rfl⟩ := hb
    by_cases h : (r.id == a.id) = true
    · rw [if_pos h]
      rfl
    · rw [if_neg h] at hbid ⊢
      exact absurd (beq_iff_eq.mpr hbid) h

/-- Witness for the amended C3 at the concrete re-transitioned attempt. -/
theorem set_login_provider_authz_code_single_live_code_witness :
    (([attemptC3].map LoginAttemptRow.id).Nodup ∧ attemptC3 ∈ [attemptC3]) ∧
    ((((set_login_provider_authz_code [attemptC3] 1 attemptC3 ['p', '2'] ['c', '2']).1.map
        LoginAttemptRow.id).Nodup) ∧
     ((set_login_provider_authz_code [attemptC3] 1 attemptC3 ['p', '2'] ['c', '2']).2.authz_code
        = some ['c', '2']) ∧
     (∀ b ∈ (set_login_provider_authz_code [attemptC3] 1 attemptC3 ['p', '2'] ['c', '2']).1,
        b.id = attemptC3.id → b.authz_code = some ['c', '2'])) :=
  ⟨⟨by decide, by decide⟩,
    set_login_provider_authz_code_single_live_code [attemptC3] 1 attemptC3
      ['p', '2'] ['c', '2'] (by decide) (by decide)⟩

/-- Insertable API key (`NewApiKey` of rfd-model): the row fields without
the store-managed timestamps. -/
structure NewApiKeyRow where
  id : Uuid
  api_user_id : Uuid
  key : List Char
  permissions : Permissions
  expires_at : Int
deriving DecidableEq

/-- Embedding of `ApiKeyStore::upsert` (postgres.rs lines 597-641): the
requested permission set is filtered to the permissions the owning user's
permission set covers (`api_user.permissions.can`) — permissions outside
the ceiling are dropped, not an error — and the filtered set is inserted
with fresh timestamps. -/
def apiKeyUpsert (key : NewApiKeyRow) (api_user : ApiUserRow) (now : Int) :
    ApiKeyRow :=
  let permissions :=
    Finset.filter (fun p => api_user.permissions.can p = true) key.permissions
  { id := key.id
    api_user_id := key.api_user_id
    key := key.key
    permissions := permissions
    expires_at := key.expires_at
    created_at := now
    updated_at := now
    deleted_at := none }

/-- C4: a new API key persisted with requested permission set `R` for an
owning user with ceiling `C` stores exactly the subset of `R` that `C`
covers; requested permissions outside the ceiling are silently dropped
rather than causing an error (the operation is total).  In particular a
ceiling of {read-all} with a request of {read-all, write-all} stores
{read-all} only. -/
theorem apiKeyUpsert_narrows_to_ceiling (k : NewApiKeyRow) (u : ApiUserRow)
    (now : Int) :
    (∀ p, p ∈ (apiKeyUpsert k u now).permissions ↔
      (p ∈ k.permissions ∧ u.permissions.can p = true)) ∧
    ((apiKeyUpsert k u now).permissions =
      Finset.filter (fun p => u.permissions.can p = true) k.permissions) ∧
    ((apiKeyUpsert ⟨1, 2, ['s'], {.ReadAllRfds, .WriteAllRfds}, 10⟩
        ⟨2, {.ReadAllRfds}, [], 0, 0, none⟩ 0).permissions =
      ({.ReadAllRfds} : Permissions)) := by
  refine ⟨?_, rfl, by decide⟩
  intro p
  simp [apiKeyUpsert, Finset.mem_filter]

/-- Lowercase hex digit table as produced by `hex::encode` (values 16 and
above never arise for single digits and are clamped). -/
def hexChar : Nat → Char
  | 0 => '0' | 1 => '1' | 2 => '2' | 3 => '3' | 4 => '4'
  | 5 => '5' | 6 => '6' | 7 => '7' | 8 => '8' | 9 => '9'
  | 10 => 'a' | 11 => 'b' | 12 => 'c' | 13 => 'd' | 14 => 'e'
  | _ => 'f'

/-- Numeric value of a hex digit character, accepting both cases as the
`uuid` crate's parser does. -/
def hexVal (c : Char) : Option Nat :=
  if 48 ≤ c.toNat ∧ c.toNat ≤ 57 then some (c.toNat - 48)
  else if 97 ≤ c.toNat ∧ c.toNat ≤ 102 then some (c.toNat - 87)
  else if 65 ≤ c.toNat ∧ c.toNat ≤ 70 then some (c.toNat - 55)
  else none

/-- Big-endian fixed-width hex rendering of a value as `k` digits. -/
def toHexBE : Nat → Nat → List Char
  | 0, _ => []
  | Nat.succ k, n => hexChar (n / 16 ^ k) :: toHexBE k (n % 16 ^ k)

/-- Reads exactly `k` hex digits, folding them onto an accumulator;
returns the accumulated value and the remaining characters. -/
def readHex : Nat → Nat → List Char → Option (Nat × List Char)
  | 0, acc, cs => some (acc, cs)
  | Nat.succ _, _, [] => none
  | Nat.succ k, acc, c :: cs =>
      match hexVal c with
      | some d => readHex k (acc * 16 + d) cs
      | none => none

/-- Consumes one expected character. -/
def expectChar (ch : Char) : List Char → Option (List Char)
  | c :: cs => if c = ch then some cs else none
  | [] => none

/-- Canonical hyphenated rendering of a `Uuid` (the `Display` of the
`uuid` crate): 8-4-4-4-12 lowercase hex digits of the 128-bit value. -/
def uuidToChars (n : Uuid) : List Char :=
  toHexBE 8 (n / 16 ^ 24) ++ '-' ::
    (toHexBE 4 (n / 16 ^ 20 % 16 ^ 4) ++ '-' ::
      (toHexBE 4 (n / 16 ^ 16 % 16 ^ 4) ++ '-' ::
        (toHexBE 4 (n / 16 ^ 12 % 16 ^ 4) ++ '-' :: toHexBE 12 (n % 16 ^ 12))))

/-- Parser for the canonical hyphenated `Uuid` format (the `FromStr` of
the `uuid` crate on hyphenated input): five hex groups of sizes
8-4-4-4-12 separated by hyphens, consumed left to right onto one
accumulator, with no trailing characters. -/
def uuidParseChars (cs : List Char) : Option Uuid :=
  match readHex 8 0 cs with
  | none => none
  | some (a1, cs1) =>
    match expectChar '-' cs1 with
    | none => none
    | some cs2 =>
      match readHex 4 a1 cs2 with
      | none => none
      | some (a2, cs3) =>
        match expectChar '-' cs3 with
        | none => none
        | some cs4 =>
          match readHex 4 a2 cs4 with
          | none => none
          | some (a3, cs5) =>
            match expectChar '-' cs5 with
            | none => none
            | some cs6 =>
              match readHex 4 a3 cs6 with
              | none => none
              | some (a4, cs7) =>
                match expectChar '-' cs7 with
                | none => none
                | some cs8 =>
                  match readHex 12 a4 cs8 with
                  | none => none
                  | some (a5, cs9) =>
                    match cs9 with
                    | [] => some a5
                    | _ => none

/-- Transient API key of rfd-api/src/authn/key.rs: identity id plus the
hex-rendered secret (`clear`). -/
structure RawApiKey where
  id : Uuid
  clear : List Char
deriving DecidableEq

/-- Error type of rfd-api/src/authn/key.rs (`ApiKeyError`). -/
inductive ApiKeyError where
  | Decode : ApiKeyError
  | FailedToParse : ApiKeyError
  | MalformedSignature : ApiKeyError
  | Signing : ApiKeyError
deriving DecidableEq

/-- Presentable key string built in `RawApiKey::sign` (key.rs line 42):
`format!("{}.{}", self.id, self.clear)`. -/
def rawApiKeyString (k : RawApiKey) : List Char :=
  uuidToChars k.id ++ '.' :: k.clear

/-- Embedding of `str::split_once('.')`: split at the first dot, if
any. -/
def splitOnceDot : List Char → Option (List Char × List Char)
  | [] => none
  | c :: cs =>
      if c = '.' then some ([], cs)
      else
        match splitOnceDot cs with
        | some (l, r) => some (c :: l, r)
        | none => none

/-- Embedding of `TryFrom<&str> for RawApiKey` (key.rs lines 53-72):
split on the first dot; the left segment must parse as a `Uuid`, the right
segment is taken verbatim as the secret; otherwise `FailedToParse`. -/
def rawApiKeyTryFrom (value : List Char) : Except ApiKeyError RawApiKey :=
  match splitOnceDot value with
  | some (idPart, keyPart) =>
      match uuidParseChars idPart with
      | some id => .ok { id := id, clear := keyPart }
      | none => .error .FailedToParse
  | none => .error .FailedToParse

theorem hexChar_ne_dot (d : Nat) : hexChar d ≠ '.' := by
  unfold hexChar
  split <;> decide

theorem hexVal_hexChar (d : Nat) (h : d < 16) : hexVal (hexChar d) = some d := by
  interval_cases d <;> decide

theorem toHexBE_ne_dot (k n : Nat) : ∀ c ∈ toHexBE k n, c ≠ '.' := by
  induction k generalizing n with
  | zero => intro c hc; simp [toHexBE] at hc
  | succ k ih =>
      intro c hc
      rw [toHexBE] at hc
      rcases List.mem_cons.mp hc with h | h
      · subst h; exact hexChar_ne_dot _
      · exact ih _ c h

theorem readHex_toHexBE (k n : Nat) (hn : n < 16 ^ k) :
    ∀ (acc : Nat) (rest : List Char),
      readHex k acc (toHexBE k n ++ rest) = some (acc * 16 ^ k + n, rest) := by
  induction k generalizing n with
  | zero =>
      intro acc rest
      have hz : n = 0 := Nat.lt_one_iff.mp (by simpa using hn)
      subst hz
      simp [toHexBE, readHex]
  | succ k ih =>
      intro acc rest
      have hd : n / 16 ^ k < 16 := by
        rw [Nat.div_lt_iff_lt_mul (Nat.pos_pow_of_pos k (by norm_num))]
        calc n < 16 ^ (k + 1) := hn
        _ = 16 * 16 ^ k := by rw [Nat.pow_succ]; ring
      have hm : n % 16 ^ k < 16 ^ k := Nat.mod_lt _ (Nat.pos_pow_of_pos k (by norm_num))
      rw [toHexBE, List.cons_append, readHex, hexVal_hexChar _ hd]
      show readHex k (acc * 16 + n / 16 ^ k) (toHexBE k (n % 16 ^ k) ++ rest) =
        some (acc * 16 ^ (k + 1) + n, rest)
      rw [ih _ hm]
      have harith : (acc * 16 + n / 16 ^ k) * 16 ^ k + n % 16 ^ k =
          acc * 16 ^ (k + 1) + n := by
        rw [Nat.add_mul, Nat.add_assoc, Nat.div_add_mod', Nat.pow_succ]
        ring
      rw [harith]

theorem expectChar_cons_self (ch : Char) (cs : List Char) :
    expectChar ch (ch :: cs) = some cs := by
  simp [expectChar]

theorem uuidParseChars_uuidToChars (n : Uuid) (hn : n < 2 ^ 128) :
    uuidParseChars (uuidToChars n) = some n := by
  have b1 : n / 16 ^ 24 < 16 ^ 8 := by
    apply Nat.div_lt_of_lt_mul
    calc n < 2 ^ 128 := hn
    _ = 16 ^ 24 * 16 ^ 8 := by norm_num
  have b2 : n / 16 ^ 20 % 16 ^ 4 < 16 ^ 4 := Nat.mod_lt _ (by norm_num)
  have b3 : n / 16 ^ 16 % 16 ^ 4 < 16 ^ 4 := Nat.mod_lt _ (by norm_num)
  have b4 : n / 16 ^ 12 % 16 ^ 4 < 16 ^ 4 := Nat.mod_lt _ (by norm_num)
  have b5 : n % 16 ^ 12 < 16 ^ 12 := Nat.mod_lt _ (by norm_num)
  unfold uuidToChars uuidParseChars
  simp only [readHex_toHexBE _ _ b1, readHex_toHexBE _ _ b2, readHex_toHexBE _ _ b3,
    readHex_toHexBE _ _ b4, expectChar_cons_self]
  rw [show toHexBE 12 (n % 16 ^ 12) = toHexBE 12 (n % 16 ^ 12) ++ ([] : List Char) from
    (List.append_nil _).symm]
  rw [readHex_toHexBE _ _ b5]
  simp only [Option.some.injEq]
  have h24 : n / 16 ^ 24 = n / 16 ^ 20 / 16 ^ 4 := by
    rw [Nat.div_div_eq_div_mul, ← pow_add]
  have h20 : n / 16 ^ 20 = n / 16 ^ 16 / 16 ^ 4 := by
    rw [Nat.div_div_eq_div_mul, ← pow_add]
  have h16 : n / 16 ^ 16 = n / 16 ^ 12 / 16 ^ 4 := by
    rw [Nat.div_div_eq_div_mul, ← pow_add]
  rw [Nat.zero_mul, Nat.zero_add, h24, Nat.div_add_mod', h20, Nat.div_add_mod', h16,
    Nat.div_add_mod', Nat.div_add_mod']

theorem splitOnceDot_append (l r : List Char) (hl : ∀ c ∈ l, c ≠ '.') :
    splitOnceDot (l ++ '.' :: r) = some (l, r) := by
  induction l with
  | nil => simp [splitOnceDot]
  | cons c cs ih =>
      have hc : c ≠ '.' := hl c (by simp)
      rw [List.cons_append, splitOnceDot, if_neg hc,
        ih (fun x hx => hl x (by simp [hx]))]

theorem splitOnceDot_none (cs : List Char) (h : ∀ c ∈ cs, c ≠ '.') :
    splitOnceDot cs = none := by
  induction cs with
  | nil => rfl
  | cons c rest ih =>
      have hc : c ≠ '.' := h c (by simp)
      rw [splitOnceDot, if_neg hc, ih (fun x hx => h x (by simp [hx]))]

theorem uuidToChars_ne_dot (n : Uuid) : ∀ c ∈ uuidToChars n, c ≠ '.' := by
  intro c hc
  unfold uuidToChars at hc
  simp only [List.mem_append, List.mem_cons] at hc
  rcases hc with h | rfl | h | rfl | h | rfl | h | rfl | h
  · exact toHexBE_ne_dot _ _ c h
  · decide
  · exact toHexBE_ne_dot _ _ c h
  · decide
  · exact toHexBE_ne_dot _ _ c h
  · decide
  · exact toHexBE_ne_dot _ _ c h
  · decide
  · exact toHexBE_ne_dot _ _ c h

/-- C7: for every identity id (a 128-bit value) and every secret of length
at least 1, parsing the presentable key string built as "{id}.{secret}"
yields back exactly the pair (id, secret): parse after format round
trips. -/
theorem rawApiKey_parse_format_roundtrip (id : Uuid) (secret : List Char)
    (hid : id < 2 ^ 128) (hsec : 1 ≤ secret.length) :
    rawApiKeyTryFrom (rawApiKeyString { id := id, clear := secret }) =
      .ok { id := id, clear := secret } := by
  unfold rawApiKeyString rawApiKeyTryFrom
  simp only [splitOnceDot_append _ _ (uuidToChars_ne_dot id),
    uuidParseChars_uuidToChars id hid]

/-- Witness for C7 at a concrete id and one-character secret. -/
theorem rawApiKey_parse_format_roundtrip_witness :
    ((12345 : Uuid) < 2 ^ 128 ∧ 1 ≤ (['a'] : List Char).length) ∧
    rawApiKeyTryFrom (rawApiKeyString { id := 12345, clear := ['a'] }) =
      .ok { id := 12345, clear := ['a'] } :=
  ⟨⟨by norm_num, by decide⟩,
    rawApiKey_parse_format_roundtrip 12345 ['a'] (by norm_num) (by decide)⟩

/-- C8: API key parsing splits the presented string on the first dot: it
fails with `FailedToParse` when no dot is present or when the left
segment (the part before the first dot) is not a valid identity id, and
otherwise succeeds, taking the left segment as the identity id and the
right segment verbatim as the secret. -/
theorem rawApiKeyTryFrom_split_spec :
    (∀ cs : List Char, (∀ c ∈ cs, c ≠ '.') →
      rawApiKeyTryFrom cs = .error .FailedToParse) ∧
    (∀ l r : List Char, (∀ c ∈ l, c ≠ '.') → uuidParseChars l = none →
      rawApiKeyTryFrom (l ++ '.' :: r) = .error .FailedToParse) ∧
    (∀ (l r : List Char) (id : Uuid), (∀ c ∈ l, c ≠ '.') →
      uuidParseChars l = some id →
      rawApiKeyTryFrom (l ++ '.' :: r) = .ok { id := id, clear := r }) := by
  refine ⟨?_, ?_, ?_⟩
  · intro cs h
    unfold rawApiKeyTryFrom
    rw [splitOnceDot_none cs h]
  · intro l r hl hparse
    unfold rawApiKeyTryFrom
    rw [splitOnceDot_append l r hl]
    simp only [hparse]
  · intro l r id hl hparse
    unfold rawApiKeyTryFrom
    rw [splitOnceDot_append l r hl]
    simp only [hparse]

/-- Witness for C8: a dotless string and a string with a non-UUID left
segment both fail; a well-formed string splits into id and verbatim
secret. -/
theorem rawApiKeyTryFrom_split_spec_witness :
    rawApiKeyTryFrom ['a', 'b'] = .error .FailedToParse ∧
    rawApiKeyTryFrom (['z'] ++ '.' :: ['s']) = .error .FailedToParse ∧
    rawApiKeyTryFrom (uuidToChars 3 ++ '.' :: ['s', '.', 't']) =
      .ok { id := 3, clear := ['s', '.', 't'] } :=
  ⟨rawApiKeyTryFrom_split_spec.1 ['a', 'b'] (by decide),
    rawApiKeyTryFrom_split_spec.2.1 ['z'] ['s'] (by decide) (by decide),
    rawApiKeyTryFrom_split_spec.2.2 (uuidToChars 3) ['s', '.', 't'] 3
      (by decide) (by decide)⟩

/-- Access group as returned by `ctx.get_groups()` in mapper.rs (the
group store itself is outside the provided sources; only the `id` and
`name` fields consumed by `EmailDomainMapper::groups_for` are
modelled). -/
structure AccessGroup where
  id : Uuid
  name : List Char
deriving DecidableEq, Repr

/-- Configuration of `EmailDomainMapper` (mapper.rs lines 23-27): a domain
string and a list of group names. -/
structure EmailDomainMapper where
  domain : List Char
  groups : List (List Char)
deriving DecidableEq, Repr

/-- User info consumed by `EmailDomainMapper::groups_for`: the verified
email list of the external identity. -/
structure UserInfo where
  verified_emails : List (List Char)
deriving DecidableEq, Repr

/-- Embedding of `EmailDomainMapper::groups_for` (mapper.rs lines 39-62):
fold over the verified emails testing `email.ends_with(&self.domain)`;
when some email matches, return the ids of the context's groups whose
names appear in the configured group-name list, otherwise the empty
list. -/
def groups_for (ctxGroups : List AccessGroup) (m : EmailDomainMapper)
    (user : UserInfo) : List Uuid :=
  let has_email_in_domain :=
    user.verified_emails.foldl (fun found email => found || m.domain.isSuffixOf email) false
  if has_email_in_domain then
    ctxGroups.filterMap (fun g => if m.groups.contains g.name then some g.id else none)
  else []

theorem foldl_or_eq_any {α : Type} (p : α → Bool) (l : List α) (b : Bool) :
    l.foldl (fun found x => found || p x) b = (b || l.any p) := by
  induction l generalizing b with
  | nil => simp
  | cons x xs ih => simp [List.foldl_cons, ih, Bool.or_assoc]

/-- C10: email-domain group mapping uses string suffix matching, not exact
domain matching — whenever any verified email ends with the configured
domain string, `groups_for` returns the ids of the configured groups, and
it returns the empty list when no verified email has that suffix. -/
theorem groups_for_suffix_matching (gs : List AccessGroup)
    (m : EmailDomainMapper) (user : UserInfo) :
    ((∃ e ∈ user.verified_emails, m.domain.isSuffixOf e = true) →
      groups_for gs m user =
        gs.filterMap (fun g => if m.groups.contains g.name then some g.id else none)) ∧
    ((∀ e ∈ user.verified_emails, m.domain.isSuffixOf e = false) →
      groups_for gs m user = []) := by
  constructor <;> intro h <;> unfold groups_for <;> rw [foldl_or_eq_any]
  · have hany : user.verified_emails.any (fun e => m.domain.isSuffixOf e) = true := by
      rw [List.any_eq_true]
      obtain ⟨e, he, hs⟩ := h
      exact ⟨e, he, hs⟩
    simp [hany]
  · have hany : user.verified_emails.any (fun e => m.domain.isSuffixOf e) = false := by
      rw [List.any_eq_false]
      intro e he
      rw [h e he]
      simp
    simp [hany]

/-- Witness for C10: the configured domain "corp.com" matches the address
"a@othercorp.com" (suffix, not exact domain), granting the configured
group. -/
theorem groups_for_suffix_matching_witness :
    (∃ e ∈ ["a@othercorp.com".toList],
      ("corp.com".toList).isSuffixOf e = true) ∧
    groups_for [⟨7, "eng".toList⟩]
        ⟨"corp.com".toList, ["eng".toList]⟩ ⟨["a@othercorp.com".toList]⟩ = [7] :=
  ⟨⟨"a@othercorp.com".toList, by decide⟩,
    ((groups_for_suffix_matching [⟨7, "eng".toList⟩]
        ⟨"corp.com".toList, ["eng".toList]⟩ ⟨["a@othercorp.com".toList]⟩).1
      ⟨"a@othercorp.com".toList, by decide⟩).trans (by decide)⟩
